import Mathlib

/-!
Verification of the image-organizer catalog core.

Shallow embedding of the core services of the organizer repository:

* `thumbnail_service.rs` — aspect-ratio-preserving resize
  (`resize_preserving_aspect_ratio`, `calculate_dimensions`);
* `file_service.rs` — folder enumeration order
  (`save_images_from_folder_with_thumbnails`, `expand_folder_dto`) and the
  smart deletion policy (`delete_image_smart`,
  `delete_single_file_with_thumbnail`, `delete_image_or_folder_smart`,
  `count_image_files_in_folder`, `delete_entire_folder`);
* `image_service.rs` — the catalog repository (`insert_image`, `find_all`,
  `find_all_images_without_filter`, `delete_image`, `update_from_dto`,
  `build_desc_condition`);
* `tag_service.rs` — the tag index (`update_tags_for_image`, `save`,
  `get_tags_for_images`).

Machine integers (`u32`, `u64`, `i64`) are modelled as `Nat`/`Int`
(the program's values stay far below any overflow boundary);
`f32` arithmetic in the resize math is modelled with exact rationals,
with Rust's `f32::round` (round half away from zero, here on nonnegative
values) as `⌊q + 1/2⌋`.  Fallible operations return `Except`; the one
reachable panic (`u64` division by zero in the page count) is modelled
by an `Option` result that is `none` exactly on the panicking input.
-/

namespace Organizer

/-! ## Resize engine (`thumbnail_service.rs`) -/

/-- Rust `f32::round` on a nonnegative value: round half away from zero. -/
def rustRound (q : ℚ) : ℕ := (⌊q + 1/2⌋).toNat

/-- Embeds `calculate_dimensions` (`thumbnail_service.rs` lines 68–77): the width
and height ratios of the bounding box to the source, the smaller of the
two as the scale, and each source dimension scaled and rounded. -/
def calculate_dimensions (width height max_width max_height : ℕ) : ℕ × ℕ :=
  let width_ratio : ℚ := (max_width : ℚ) / (width : ℚ)
  let height_ratio : ℚ := (max_height : ℚ) / (height : ℚ)
  let scale_ratio := min width_ratio height_ratio
  (rustRound ((width : ℚ) * scale_ratio), rustRound ((height : ℚ) * scale_ratio))

/-- Embeds `resize_preserving_aspect_ratio` (`thumbnail_service.rs` lines 42–64),
tracked at the level of pixel dimensions: inside the box the image is
returned unchanged, otherwise `resize_exact` is called on the dimensions
computed by `calculate_dimensions`. -/
def resize_preserving_aspect_ratio (width height max_width max_height : ℕ) : ℕ × ℕ :=
  if width ≤ max_width ∧ height ≤ max_height then (width, height)
  else calculate_dimensions width height max_width max_height

/-! ## File name ordering (`file_service.rs`)

`save_images_from_folder_with_thumbnails` (lines 70–120) sorts the
directory entries with `name_a.to_lowercase().cmp(&name_b.to_lowercase())`
— plain lexicographic order on the lowercased names — and then assigns
0-based indices in that order.  `expand_folder_dto` (lines 379–398) sorts
with `natord::compare`.  The `natord` comparator is an external crate,
modelled here at its interface: runs of decimal digits compare by numeric
value, all other characters compare by code point. -/

/-- Split the longest leading run of decimal digits off a character list. -/
def takeDigits : List Char → List Char × List Char
  | [] => ([], [])
  | c :: cs =>
    if c.isDigit then
      let r := takeDigits cs
      (c :: r.1, r.2)
    else ([], c :: cs)

/-- Numeric value of a digit run. -/
def digitsVal (cs : List Char) : ℕ :=
  cs.foldl (fun acc c => acc * 10 + (c.toNat - 48)) 0

theorem takeDigits_snd_length_le (cs : List Char) : (takeDigits cs).2.length ≤ cs.length := by
  induction cs with
  | nil => simp [takeDigits]
  | cons c cs ih =>
    by_cases h : c.isDigit <;> simp [takeDigits, h]
    exact Nat.le_succ_of_le ih

/-- Natural-order comparison of two character lists, driven by a fuel
argument so that the recursion is structural (any fuel of at least the
total length of the inputs is enough, see `natOrd`): digit runs compare
as numbers (ties broken by the remainder), other characters compare by
code point. -/
def natOrdFuel : ℕ → List Char → List Char → Ordering
  | 0, _, _ => .eq
  | _ + 1, [], [] => .eq
  | _ + 1, [], _ :: _ => .lt
  | _ + 1, _ :: _, [] => .gt
  | fuel + 1, x :: xs, y :: ys =>
    if x.isDigit ∧ y.isDigit then
      let ra := takeDigits (x :: xs)
      let rb := takeDigits (y :: ys)
      let na := digitsVal ra.1
      let nb := digitsVal rb.1
      if na < nb then .lt
      else if nb < na then .gt
      else natOrdFuel fuel ra.2 rb.2
    else if x = y then natOrdFuel fuel xs ys
    else if x < y then .lt else .gt

/-- Natural-order comparison of two character lists.  Models the
`natord::compare` collaborator used by `expand_folder_dto`.  The fuel
bound exceeds the combined input length, and every recursive step of
`natOrdFuel` strictly shrinks that combined length, so the fuel never
runs out. -/
def natOrd (a b : List Char) : Ordering :=
  natOrdFuel (a.length + b.length + 1) a b

/-- Natural order on file names, as a `≤`-style boolean for sorting. -/
def natLe (a b : String) : Bool := natOrd a.toList b.toList ≠ .gt

/-- Lexicographic `≤` on character lists by code point; for ASCII names
this agrees with Rust's byte-wise `String::cmp` (UTF-8 byte order is
code-point order). -/
def lexLe : List Char → List Char → Bool
  | [], _ => true
  | _ :: _, [] => false
  | x :: xs, y :: ys => if x = y then lexLe xs ys else decide (x < y)

/-- Lowercasing as done by `to_lowercase` ahead of the save-folder sort,
on the character list (ASCII lowering). -/
def strToLower (s : String) : List Char := s.toList.map Char.toLower

/-- The sort key used by `save_images_from_folder_with_thumbnails`:
lexicographic `≤` on the lowercased names (Rust `String::cmp` after
`to_lowercase`). -/
def lowercaseLexLe (a b : String) : Bool := lexLe (strToLower a) (strToLower b)

/-- Rust `str::starts_with`, computed on the character lists. -/
def strStartsWith (s p : String) : Bool := p.toList.isPrefixOf s.toList

/-- Rust `str::ends_with`, computed on the character lists. -/
def strEndsWith (s p : String) : Bool := p.toList.reverse.isPrefixOf s.toList.reverse

/-- The characters after the last `.` of the list, if a `.` occurs. -/
def lastDotSuffix : List Char → Option (List Char)
  | [] => none
  | c :: cs =>
    match lastDotSuffix cs with
    | some e => some e
    | none => if c = '.' then some cs else none

/-- Rust `Path::extension` on a file name: the part after the last `.`,
with no extension when there is no `.` or only a leading one. -/
def fileExtension (name : String) : Option String :=
  match name.toList with
  | [] => none
  | c0 :: rest =>
    (lastDotSuffix (if c0 = '.' then rest else c0 :: rest)).map String.mk

/-- Embeds `is_image_file` (`file_service.rs` lines 357–366): the lowercased
extension is in the allow-list. -/
def is_image_file (name : String) : Bool :=
  match fileExtension name with
  | some ext =>
    let e := ext.toList.map Char.toLower
    e = "png".toList ∨ e = "jpg".toList ∨ e = "jpeg".toList ∨
      e = "gif".toList ∨ e = "bmp".toList ∨ e = "tiff".toList ∨
      e = "webp".toList
  | none => false

/-- The processing order of `save_images_from_folder_with_thumbnails`
(lines 70–120): keep the image files, sort by lowercased lexicographic
name; index `i` is then assigned to the `i`-th element. -/
def save_folder_order (names : List String) : List String :=
  List.insertionSort (fun a b => lowercaseLexLe a b) (names.filter is_image_file)

/-- Index assignment of the save-folder loop: 0-based position in
`save_folder_order`. -/
def save_folder_indexed (names : List String) : List (ℕ × String) :=
  (List.range (save_folder_order names).length).zip (save_folder_order names)

/-- The listing order of `expand_folder_dto` (lines 379–398): keep the
`.png` files that are not thumbnails, sort by `natord::compare`. -/
def expand_folder_order (names : List String) : List String :=
  List.insertionSort (fun a b => natLe a b)
    (names.filter (fun n => strEndsWith n ".png" ∧ ¬ strStartsWith n "thumb_"))

/-! ## Theorems for C4 and C5 -/

/-- C5: for every source image of positive dimensions `(w,h)` and bounding
box `(maxW,maxH)`: if the image fits within the box it is returned with
dimensions unchanged; otherwise the result has exactly
`(round (w·s), round (h·s))` pixels with `s = min (maxW/w) (maxH/h)`.
In particular a 4000×2000 source bounded by 500×500 yields exactly
500×250, and a 300×200 source bounded by 500×500 is unchanged. -/
theorem resize_bounds_spec (w h maxW maxH : ℕ) (hw : 0 < w) (hh : 0 < h) :
    ((w ≤ maxW ∧ h ≤ maxH) → resize_preserving_aspect_ratio w h maxW maxH = (w, h)) ∧
    (¬ (w ≤ maxW ∧ h ≤ maxH) →
      resize_preserving_aspect_ratio w h maxW maxH =
        (rustRound ((w : ℚ) * min ((maxW : ℚ) / w) ((maxH : ℚ) / h)),
         rustRound ((h : ℚ) * min ((maxW : ℚ) / w) ((maxH : ℚ) / h)))) ∧
    resize_preserving_aspect_ratio 4000 2000 500 500 = (500, 250) ∧
    resize_preserving_aspect_ratio 300 200 500 500 = (300, 200) := by
  refine ⟨fun hfit => ?_, fun hnofit => ?_, ?_, ?_⟩
  · simp [resize_preserving_aspect_ratio, hfit]
  · simp [resize_preserving_aspect_ratio, hnofit, calculate_dimensions]
  · norm_num [resize_preserving_aspect_ratio, calculate_dimensions, rustRound]
    decide
  · norm_num [resize_preserving_aspect_ratio]

/-- Witness for `resize_bounds_spec` at the spec's own example inputs. -/
theorem resize_bounds_spec_witness :
    (0 : ℕ) < 4000 ∧ (0 : ℕ) < 2000 ∧
      resize_preserving_aspect_ratio 4000 2000 500 500 = (500, 250) :=
  ⟨by decide, by decide,
    (resize_bounds_spec 4000 2000 500 500 (by decide) (by decide)).2.2.1⟩

/-- C4 counterexample: the save-folder operation does NOT use natural
ordering.  On the spec's own example `["img2.png","img10.png","img1.png"]`
it produces the lexicographic order `img1, img10, img2`, not the claimed
natural order `img1, img2, img10`. -/
theorem save_folder_order_is_lexicographic :
    save_folder_order ["img2.png", "img10.png", "img1.png"] =
      ["img1.png", "img10.png", "img2.png"] ∧
    save_folder_order ["img2.png", "img10.png", "img1.png"] ≠
      ["img1.png", "img2.png", "img10.png"] := by decide

/-- C4 amended: the expand-folder operation orders the folder's image
files by natural filename ordering (`img1, img2, img10` on the example),
while the save-folder operation orders them lexicographically on the
lowercased names (`img1, img10, img2` on the example) and assigns the
0-based indices in that lexicographic order. -/
theorem folder_orderings :
    expand_folder_order ["img2.png", "img10.png", "img1.png"] =
      ["img1.png", "img2.png", "img10.png"] ∧
    save_folder_order ["img2.png", "img10.png", "img1.png"] =
      ["img1.png", "img10.png", "img2.png"] ∧
    save_folder_indexed ["img2.png", "img10.png", "img1.png"] =
      [(0, "img1.png"), (1, "img10.png"), (2, "img2.png")] := by decide

/-! ## Filesystem model and smart deletion (`file_service.rs`) -/

deriving instance DecidableEq for Except

/-- A path, as its list of name components (Rust `Path` components). -/
abbrev FPath := List String

/-- The filesystem as the finite sets of existing files and directories,
kept as lists. -/
structure FS where
  files : List FPath
  dirs : List FPath
deriving DecidableEq, Repr

/-- Errors of the deletion functions (`std::io::Error` kinds that the
code produces or matches on). -/
inductive IoErr where
  | notFound
  | permissionDenied
  | other
deriving DecidableEq, Repr

/-- Rust `Path::exists`: the path names a file or a directory. -/
def FS.pathExists (fs : FS) (p : FPath) : Bool :=
  p ∈ fs.files ∨ p ∈ fs.dirs

/-- Rust `Path::parent`: all but the last component (`none` at the root). -/
def parentOf (p : FPath) : Option FPath :=
  if p = [] then none else some p.dropLast

/-- Rust `Path::file_name`: the last component. -/
def fileNameOf (p : FPath) : Option String := p.getLast?

/-- Rust `fs::remove_file`: removes a file, errors when the path is not
an existing file. -/
def FS.removeFile (fs : FS) (p : FPath) : Except IoErr FS :=
  if p ∈ fs.files then .ok { fs with files := fs.files.erase p }
  else .error .other

/-- Rust `fs::remove_dir_all`: removes a directory and everything below
it, errors when the path is not an existing directory. -/
def FS.removeDirAll (fs : FS) (p : FPath) : Except IoErr FS :=
  if p ∈ fs.dirs then
    .ok { files := fs.files.filter (fun q => ¬ p.isPrefixOf q),
          dirs := fs.dirs.filter (fun q => ¬ p.isPrefixOf q) }
  else .error .other

/-- The path of the thumbnail matched to a deleted file:
`parent.join("thumb_" ++ file_name)` (`file_service.rs` lines 180–191;
the two branches of the source's `if` build the same name). -/
def thumbPathOf (parent : FPath) (name : String) : FPath :=
  parent ++ ["thumb_" ++ name]

/-- Embeds `delete_single_file_with_thumbnail` (`file_service.rs` lines 166–203):
an already-missing file is success; otherwise the file is removed, and
the matching thumbnail is removed when it exists. -/
def delete_single_file_with_thumbnail (fs : FS) (path : FPath) : Except IoErr FS :=
  if ¬ fs.pathExists path then .ok fs
  else
    match fs.removeFile path with
    | .error e => .error e
    | .ok fs1 =>
      match parentOf path, fileNameOf path with
      | some parent, some name =>
        let thumb_path := thumbPathOf parent name
        if fs1.pathExists thumb_path then fs1.removeFile thumb_path
        else .ok fs1
      | _, _ => .ok fs1

/-- Embeds `count_image_files_in_folder` (`file_service.rs` lines 257–282):
the number of files directly inside the folder that are image files,
not `thumb_`-prefixed, and not `meta.json`. -/
def count_image_files_in_folder (fs : FS) (folder_path : FPath) : ℕ :=
  if folder_path ∈ fs.dirs then
    (fs.files.filter (fun q =>
      decide (parentOf q = some folder_path) &&
      match fileNameOf q with
      | some n => is_image_file n && ! strStartsWith n "thumb_" && decide (n ≠ "meta.json")
      | none => false)).length
  else 0

/-- Embeds `delete_entire_folder` (`file_service.rs` lines 285–306): a missing
folder is success; a folder whose name is `images` is refused with a
permission error; otherwise the whole tree is removed. -/
def delete_entire_folder (fs : FS) (folder_path : FPath) : Except IoErr FS :=
  if ¬ fs.pathExists folder_path then .ok fs
  else
    match fileNameOf folder_path with
    | some folder_name =>
      if folder_name = "images" then .error .permissionDenied
      else fs.removeDirAll folder_path
    | none => fs.removeDirAll folder_path

/-- Embeds `delete_image_or_folder_smart` (`file_service.rs` lines 206–254):
when the parent directory's name is all ASCII digits and it holds at
most one qualifying image, the whole parent folder is deleted;
otherwise only the single file (and its thumbnail). -/
def delete_image_or_folder_smart (fs : FS) (path : FPath) : Except IoErr FS :=
  match parentOf path with
  | none => delete_single_file_with_thumbnail fs path
  | some parent_dir =>
    let is_numbered_folder :=
      ((fileNameOf parent_dir).map (fun n => n.toList.all Char.isDigit)).getD false
    if ¬ is_numbered_folder then delete_single_file_with_thumbnail fs path
    else
      let image_count := count_image_files_in_folder fs parent_dir
      if image_count ≤ 1 then delete_entire_folder fs parent_dir
      else delete_single_file_with_thumbnail fs path

/-- Embeds `delete_image_smart` (`file_service.rs` lines 140–163): a missing
path is a `NotFound` error; `from_folder = true` deletes only the one
file and its thumbnail; otherwise the folder heuristic applies. -/
def delete_image_smart (fs : FS) (path : FPath) (from_folder : Bool) : Except IoErr FS :=
  if ¬ fs.pathExists path then .error .notFound
  else if from_folder then delete_single_file_with_thumbnail fs path
  else delete_image_or_folder_smart fs path

/-! ## Theorems for C3, C9 and the artifact half of C7 -/

/-- A folder entry `images/5` holding two image files with their
thumbnails, the folder thumbnail and the metadata sidecar. -/
def twoFileFolderFS : FS :=
  { files := [ ["images", "5", "image_5_0.png"], ["images", "5", "image_5_1.png"],
               ["images", "5", "thumb_image_5_0.png"], ["images", "5", "thumb_image_5_1.png"],
               ["images", "5", "thumb_folder.png"], ["images", "5", "meta.json"] ],
    dirs := [ ["images"], ["images", "5"] ] }

/-- State of `twoFileFolderFS` after the from-folder deletion of the first file. -/
def oneFileFolderFS : FS :=
  { files := [ ["images", "5", "image_5_1.png"],
               ["images", "5", "thumb_image_5_1.png"],
               ["images", "5", "thumb_folder.png"], ["images", "5", "meta.json"] ],
    dirs := [ ["images"], ["images", "5"] ] }

/-- State of `oneFileFolderFS` after the from-folder deletion of the last file:
the folder itself is still there. -/
def emptiedFolderFS : FS :=
  { files := [ ["images", "5", "thumb_folder.png"], ["images", "5", "meta.json"] ],
    dirs := [ ["images"], ["images", "5"] ] }

/-- C3 counterexample: on a folder with 2 files, the first from-folder
delete removes only file 0 and its thumbnail (folder and file 1 remain,
as claimed), but the subsequent from-folder delete of the last remaining
file leaves the qualifying-image count at exactly zero with the
containing folder STILL PRESENT — the claimed folder removal never
happens on the `from_folder = true` path. -/
theorem from_folder_delete_never_removes_folder :
    delete_image_smart twoFileFolderFS ["images", "5", "image_5_0.png"] true =
      .ok oneFileFolderFS ∧
    ["images", "5"] ∈ oneFileFolderFS.dirs ∧
    ["images", "5", "image_5_1.png"] ∈ oneFileFolderFS.files ∧
    delete_image_smart oneFileFolderFS ["images", "5", "image_5_1.png"] true =
      .ok emptiedFolderFS ∧
    count_image_files_in_folder emptiedFolderFS ["images", "5"] = 0 ∧
    ["images", "5"] ∈ emptiedFolderFS.dirs := by decide

/-- C3 amended: a from-folder deletion removes exactly the target file
and its matching thumbnail and never touches the folder or sibling
files, even when the qualifying-image count drops to zero; the
containing folder is removed only by the `from_folder = false` path,
which deletes the whole all-digit-named parent folder whenever its
qualifying-image count before the deletion is at most one. -/
theorem delete_image_smart_policy (fs : FS) (parent : FPath) (name : String)
    (hfile : parent ++ [name] ∈ fs.files) :
    ((thumbPathOf parent name ∉ fs.dirs) →
      delete_image_smart fs (parent ++ [name]) true =
        .ok { files := (fs.files.erase (parent ++ [name])).erase (thumbPathOf parent name),
              dirs := fs.dirs }) ∧
    (parent ∈ fs.dirs →
      ((fileNameOf parent).map (fun n => n.toList.all Char.isDigit)).getD false = true →
      count_image_files_in_folder fs parent ≤ 1 →
        delete_image_smart fs (parent ++ [name]) false =
          .ok { files := fs.files.filter (fun q => ¬ parent.isPrefixOf q),
                dirs := fs.dirs.filter (fun q => ¬ parent.isPrefixOf q) } ∧
        parent ∉ fs.dirs.filter (fun q => ¬ parent.isPrefixOf q)) := by
  have hex : fs.pathExists (parent ++ [name]) = true := by
    simp [FS.pathExists, hfile]
  constructor
  · intro hthumb
    have hname : fileNameOf (parent ++ [name]) = some name := by
      simp [fileNameOf]
    have hparent : parentOf (parent ++ [name]) = some parent := by
      simp [parentOf, List.dropLast_concat]
    simp only [delete_image_smart, hex, Bool.not_true, Bool.false_eq_true, if_false,
      if_true, delete_single_file_with_thumbnail, FS.removeFile, hfile, if_pos,
      hparent, hname]
    by_cases ht : thumbPathOf parent name ∈ (fs.files.erase (parent ++ [name]))
    · have : FS.pathExists ⟨fs.files.erase (parent ++ [name]), fs.dirs⟩
          (thumbPathOf parent name) = true := by
        simp [FS.pathExists, ht]
      simp [this, FS.removeFile, ht]
    · have : FS.pathExists ⟨fs.files.erase (parent ++ [name]), fs.dirs⟩
          (thumbPathOf parent name) = false := by
        simp only [FS.pathExists, decide_eq_false_iff_not]
        intro h
        rcases h with h | h
        · exact ht h
        · exact hthumb h
      simp [this, List.erase_of_not_mem ht]
  · intro hdir hnum hcount
    have hparent : parentOf (parent ++ [name]) = some parent := by
      simp [parentOf, List.dropLast_concat]
    have hpne : parent ≠ [] := by
      intro h
      subst h
      simp [fileNameOf] at hnum
    obtain ⟨pn, hpn⟩ := List.getLast?_isSome.mpr hpne |> Option.isSome_iff_exists.mp
    have hpname : fileNameOf parent = some pn := hpn
    have hdigits : pn.toList.all Char.isDigit = true := by
      simpa [fileNameOf, hpn] using hnum
    have hpnotimages : pn ≠ "images" := by
      intro h
      subst h
      simp [String.toList] at hdigits
    have hpex : fs.pathExists parent = true := by
      simp [FS.pathExists, hdir]
    have hres : delete_image_smart fs (parent ++ [name]) false =
        .ok { files := fs.files.filter (fun q => ¬ parent.isPrefixOf q),
              dirs := fs.dirs.filter (fun q => ¬ parent.isPrefixOf q) } := by
      simp only [delete_image_smart, hex, Bool.not_true, Bool.false_eq_true, if_false,
        Bool.false_eq_true, if_false, delete_image_or_folder_smart, hparent, hpname,
        Option.map_some, Option.getD_some, hdigits, Bool.not_true, Bool.false_eq_true,
        if_false, hcount, if_pos, delete_entire_folder, hpex, delete_entire_folder,
        FS.removeDirAll, hdir]
      simp [hpnotimages]
      intro x hx hxd
      have := List.all_eq_true.mp hdigits x hx
      simp [hxd] at this
    refine ⟨hres, ?_⟩
    intro hmem
    have := List.of_mem_filter hmem
    simp [List.isPrefixOf_iff_prefix] at this

/-- Witness for `delete_image_smart_policy` on the two-file folder
state: both the from-folder branch and the folder-removal branch of the
conclusion are instantiated and their hypotheses discharged. -/
theorem delete_image_smart_policy_witness :
    (delete_image_smart twoFileFolderFS (["images", "5"] ++ ["image_5_0.png"]) true =
      .ok { files := ((twoFileFolderFS.files.erase (["images", "5"] ++ ["image_5_0.png"])).erase
                        (thumbPathOf ["images", "5"] "image_5_0.png")),
            dirs := twoFileFolderFS.dirs }) ∧
    (delete_image_smart oneFileFolderFS (["images", "5"] ++ ["image_5_1.png"]) false =
      .ok { files := oneFileFolderFS.files.filter (fun q => ¬ (["images", "5"] : FPath).isPrefixOf q),
            dirs := oneFileFolderFS.dirs.filter (fun q => ¬ (["images", "5"] : FPath).isPrefixOf q) }) :=
  ⟨(delete_image_smart_policy twoFileFolderFS ["images", "5"] "image_5_0.png"
      (by decide)).1 (by decide),
   ((delete_image_smart_policy oneFileFolderFS ["images", "5"] "image_5_1.png"
      (by decide)).2 (by decide) (by decide) (by decide)).1⟩

/-- C9: recursive artifact deletion never removes the root `images`
directory: whenever the computed path exists and its final name
component is `images`, `delete_entire_folder` returns a permission
error before any removal. -/
theorem delete_entire_folder_images_guard (fs : FS) (p : FPath)
    (hex : fs.pathExists p = true) (hname : fileNameOf p = some "images") :
    delete_entire_folder fs p = .error .permissionDenied := by
  simp [delete_entire_folder, hex, hname]

/-- Witness for `delete_entire_folder_images_guard`: the guard fires on
the root images directory of the two-file folder state. -/
theorem delete_entire_folder_images_guard_witness :
    delete_entire_folder twoFileFolderFS ["images"] = .error .permissionDenied :=
  delete_entire_folder_images_guard twoFileFolderFS ["images"] (by decide) (by decide)

/-! ## Catalog data model (`models/`, migrations)

The `images` table (create migration plus the `is_prepared` and
`is_folder` alter migrations), the `tags` table (`id`, unique `name`,
`color`) and the `image_tags` join table with composite primary key and
cascade deletes.  Timestamps are modelled as naturals (insertion
ordinals); SQLite `TEXT` equality is byte-wise, so string comparison in
queries is exact (case-sensitive). -/

/-- Embeds `TagColor` (`models/tag_color.rs`). -/
inductive TagColor where
  | red | green | blue | orange | purple | pink | indigo | teal | gray
deriving DecidableEq, Repr

/-- A row of the `images` table (`models/image.rs` plus the columns
added by the `is_prepared`/`is_folder` migrations, which the service
code reads and writes). -/
structure ImageRow where
  id : ℤ
  path : String
  thumbnail_path : String
  description : String
  created_at : ℕ
  is_folder : Bool
  is_prepared : Bool
deriving DecidableEq, Repr

/-- A row of the `tags` table (`models/tag.rs`). -/
structure TagRow where
  id : ℤ
  name : String
  color : TagColor
deriving DecidableEq, Repr

/-- The database: the three tables, rows in insertion order.  The
`image_tags` rows are `(image_id, tag_id)` pairs. -/
structure Db where
  images : List ImageRow
  tags : List TagRow
  image_tags : List (ℤ × ℤ)
deriving DecidableEq, Repr

/-- Embeds `TagDTO` (`dtos/tag_dto.rs`), the tag set being kept as a list. -/
structure TagDTO where
  id : ℤ
  name : String
  color : TagColor
deriving DecidableEq, Repr

/-- Embeds `ImageDTO` (`dtos/image_dto.rs`); `created_at` stays the stored
ordinal, `tags` the hydrated tag set as a list. -/
structure ImageDTO where
  id : ℤ
  path : String
  thumbnail_path : String
  description : String
  tags : List TagDTO
  created_at : ℕ
  is_folder : Bool
  is_prepared : Bool
deriving DecidableEq, Repr

/-- Embeds `ImageUpdateDTO` (`dtos/image_dto.rs`). -/
structure ImageUpdateDTO where
  path : Option String
  thumbnail_path : Option String
  description : Option String
  tags : Option (List TagDTO)
  is_folder : Bool
  is_prepared : Bool
deriving DecidableEq, Repr

/-- Database errors the services produce. -/
inductive DbErr where
  | recordNotFound
  | uniqueViolation
deriving DecidableEq, Repr

/-- Embeds `SortOrder` (`models/filter.rs`). -/
inductive SortOrder where
  | createdAsc | createdDesc
deriving DecidableEq, Repr

/-- Embeds `Filter` (`models/filter.rs`); the `HashSet<String>` of tag names is
a list that callers keep duplicate-free. -/
structure Filter where
  query : String
  tags : List String
  sort_order : SortOrder

/-- Embeds `Page` (`models/page.rs`). -/
structure Page (α : Type) where
  content : List α
  total_pages : ℕ
  page_number : ℕ
deriving DecidableEq, Repr

/-! ## Tag index (`tag_service.rs`) -/

/-- The id the store assigns to a newly inserted tag row (autoincrement:
one more than the largest id in the table). -/
def nextTagId (db : Db) : ℤ :=
  (db.tags.map TagRow.id).foldr max 0 + 1

/-- The find-or-create step of `update_tags_for_image`
(`tag_service.rs` lines 90–105): look the tag up by its exact name;
reuse it when found, insert a fresh row with the DTO's color otherwise. -/
def resolveOrCreateTag (db : Db) (name : String) (color : TagColor) : Db × TagRow :=
  match db.tags.find? (fun t => t.name = name) with
  | some existing_tag => (db, existing_tag)
  | none =>
    let new_tag : TagRow := { id := nextTagId db, name := name, color := color }
    ({ db with tags := db.tags ++ [new_tag] }, new_tag)

/-- Insert into `image_tags`; the composite primary key rejects a
duplicate pair. -/
def insertImageTag (db : Db) (image_id tag_id : ℤ) : Except DbErr Db :=
  if (image_id, tag_id) ∈ db.image_tags then .error .uniqueViolation
  else .ok { db with image_tags := db.image_tags ++ [(image_id, tag_id)] }

/-- The per-tag body of the `update_tags_for_image` loop: skip empty
names, resolve or create the tag, link it to the image. -/
def addTagToImage (db : Db) (image_id : ℤ) (tag_dto : TagDTO) : Except DbErr Db :=
  if tag_dto.name = "" then .ok db
  else
    let (db1, tag) := resolveOrCreateTag db tag_dto.name tag_dto.color
    insertImageTag db1 image_id tag.id

/-- The `for tag_dto in tags` loop of `update_tags_for_image`, with `?`
propagating the first error. -/
def addTagsLoop (image_id : ℤ) : Db → List TagDTO → Except DbErr Db
  | db, [] => .ok db
  | db, tag_dto :: rest =>
    match addTagToImage db image_id tag_dto with
    | .error e => .error e
    | .ok db1 => addTagsLoop image_id db1 rest

/-- Embeds `update_tags_for_image` (`tag_service.rs` lines 74–118): delete all
`image_tags` rows of the image, then re-insert one row per desired tag,
resolving or creating each by name. -/
def update_tags_for_image (db : Db) (image_id : ℤ) (tags : List TagDTO) : Except DbErr Db :=
  addTagsLoop image_id
    { db with image_tags := db.image_tags.filter (fun p => p.1 ≠ image_id) } tags

/-- Embeds `save` (`tag_service.rs` lines 129–140): lowercase the name, insert
a new tag row.  The `tags.name` UNIQUE constraint is modelled from the
spec (the create-tags migration is referenced by `migration/src/lib.rs`
but its file is not in the tree): an exact duplicate of the lowercased
name is rejected. -/
def tag_save (db : Db) (name : String) (color : TagColor) : Except DbErr Db :=
  let lowered := String.mk (strToLower name)
  if (db.tags.find? (fun t => t.name = lowered)).isSome then .error .uniqueViolation
  else .ok { db with tags := db.tags ++ [{ id := nextTagId db, name := lowered, color := color }] }

/-- Embeds `get_tags_for_images`, restricted to one image id: the join rows
`image_tags ⋈ tags` for that image, as `TagDTO`s
(`tag_service.rs` lines 14–50). -/
def tagsForImage (db : Db) (image_id : ℤ) : List TagDTO :=
  (db.image_tags.filter (fun p => p.1 = image_id)).flatMap
    (fun p => (db.tags.filter (fun t => t.id = p.2)).map
      (fun t => { id := t.id, name := t.name, color := t.color }))

/-- The tag names an image carries (through the join). -/
def tagNamesOfImage (db : Db) (image_id : ℤ) : List String :=
  (tagsForImage db image_id).map TagDTO.name

/-! ## Catalog repository (`image_service.rs`) -/

/-- The id the store assigns to a newly inserted image row. -/
def nextImageId (db : Db) : ℤ :=
  (db.images.map ImageRow.id).foldr max 0 + 1

/-- Embeds `insert_image` (`image_service.rs` lines 15–27): a placeholder row
with empty path and thumbnail and `is_prepared = false` (`is_folder`
takes the column default `false`, `created_at` the server timestamp);
the fresh id is returned. -/
def insert_image (db : Db) (desc : String) (now : ℕ) : Db × ℤ :=
  let new_image : ImageRow :=
    { id := nextImageId db, path := "", thumbnail_path := "", description := desc,
      created_at := now, is_folder := false, is_prepared := false }
  ({ db with images := db.images ++ [new_image] }, new_image.id)

/-- Rust `str::trim` on the character list. -/
def trimChars (cs : List Char) : List Char :=
  ((cs.dropWhile Char.isWhitespace).reverse.dropWhile Char.isWhitespace).reverse

/-- Rust `str::split('+')` on the character list. -/
def splitOnPlus : List Char → List (List Char)
  | [] => [[]]
  | c :: rest =>
    match splitOnPlus rest with
    | [] => [[]]
    | g :: gs => if c = '+' then [] :: g :: gs else (c :: g) :: gs

/-- Contiguous-substring test on character lists. -/
def listIsInfixOf (needle : List Char) : List Char → Bool
  | [] => needle.isEmpty
  | c :: rest => needle.isPrefixOf (c :: rest) || listIsInfixOf needle rest

/-- SQL `LIKE '%needle%'` as generated by `Column::contains`:
substring containment, ASCII-case-insensitively (SQLite `LIKE`). -/
def likeContains (hay : String) (needle : List Char) : Bool :=
  listIsInfixOf (needle.map Char.toLower) (hay.toList.map Char.toLower)

/-- Embeds `build_desc_condition` (`image_service.rs` lines 222–237): an empty
trimmed query is no condition; a query with `+` is an OR of containment
checks over the trimmed non-empty terms; otherwise a single containment
check. -/
def build_desc_condition (query : String) : Option (String → Bool) :=
  let q := trimChars query.toList
  if q = [] then none
  else if q.contains '+' then
    some (fun desc =>
      (((splitOnPlus q).map trimChars).filter (fun t => t ≠ [])).any
        (fun term => likeContains desc term))
  else some (fun desc => likeContains desc q)

/-- The rows of the `images ⋈ image_tags ⋈ tags` join that belong to one
image and carry a requested tag name — what `COUNT(tag.name)` counts in
the grouped query of `find_all`. -/
def joinCountForImage (db : Db) (tag_names : List String) (image_id : ℤ) : ℕ :=
  ((db.image_tags.filter (fun p => p.1 = image_id)).flatMap
    (fun p => db.tags.filter (fun t => t.id = p.2 && tag_names.contains t.name))).length

/-- The WHERE/HAVING conditions of the filtered `find_all` query
(`image_service.rs` lines 40–58) applied to one image row: the grouped
tag-count condition when a tag filter is present, AND the description
condition when a text query is present. -/
def filterPred (db : Db) (f : Filter) (img : ImageRow) : Bool :=
  (if f.tags.isEmpty then true
   else joinCountForImage db f.tags img.id = f.tags.length) &&
  (match build_desc_condition f.query with
   | some cond => cond img.description
   | none => true)

/-- The set of rows the filtered query of `find_all` selects, before
sorting and pagination. -/
def filteredSelection (db : Db) (f : Filter) : List ImageRow :=
  db.images.filter (filterPred db f)

/-- The page-count computation shared by both `find_all` paths
(`image_service.rs` lines 69–73 and 112–116): `0` pages for an empty
result, otherwise `(total_count + size - 1) / size` — whose division
panics when `size = 0`, modelled as `none`. -/
def totalPagesOf (total_count size : ℕ) : Option ℕ :=
  if total_count = 0 then some 0
  else if size = 0 then none
  else some ((total_count + size - 1) / size)

/-- Embeds SQL `ORDER BY created_at` in the requested direction (modelled with a
stable insertion sort; SQL fixes only the key order). -/
def sortImages (ord : SortOrder) (l : List ImageRow) : List ImageRow :=
  if ord = SortOrder.createdDesc then
    List.insertionSort (fun a b => b.created_at ≤ a.created_at) l
  else
    List.insertionSort (fun a b => a.created_at ≤ b.created_at) l

/-- Embeds SQL `LIMIT size OFFSET page * size`. -/
def paginate {α : Type} (l : List α) (page size : ℕ) : List α :=
  (l.drop (page * size)).take size

/-- Embeds `to_image_dto` (`image_service.rs` lines 246–257) with the tag map
of `get_tags_for_images` inlined. -/
def to_image_dto (db : Db) (model : ImageRow) : ImageDTO :=
  { id := model.id, path := model.path, thumbnail_path := model.thumbnail_path,
    description := model.description, tags := tagsForImage db model.id,
    created_at := model.created_at, is_folder := model.is_folder,
    is_prepared := model.is_prepared }

/-- Embeds `find_all_images_without_filter` (`image_service.rs` lines 104–140). -/
def find_all_images_without_filter (db : Db) (f : Filter) (page size : ℕ) :
    Option (Page ImageDTO) :=
  match totalPagesOf db.images.length size with
  | none => none
  | some total_pages =>
    some { content := (paginate (sortImages f.sort_order db.images) page size).map
             (to_image_dto db),
           total_pages := total_pages, page_number := page }

/-- Embeds `find_all` (`image_service.rs` lines 29–102): no filter delegates to
the unfiltered path; otherwise the filtered selection is counted
distinctly by id for the page count, sorted, paginated and hydrated. -/
def find_all (db : Db) (f : Filter) (page size : ℕ) : Option (Page ImageDTO) :=
  let has_query := trimChars f.query.toList ≠ []
  let has_tags := ¬ f.tags.isEmpty
  if ¬ has_query ∧ ¬ has_tags then find_all_images_without_filter db f page size
  else
    let sel := filteredSelection db f
    let total_count := ((sel.map ImageRow.id).dedup).length
    match totalPagesOf total_count size with
    | none => none
    | some total_pages =>
      some { content := (paginate (sortImages f.sort_order sel) page size).map
               (to_image_dto db),
             total_pages := total_pages, page_number := page }

/-- Embeds `delete_image` (`image_service.rs` lines 142–152): the row is
deleted by id inside a transaction (the `image_tags` rows cascade), and
the call returns `Ok` whether or not a row was deleted. -/
def delete_image (db : Db) (id_val : ℤ) : Except DbErr Db :=
  .ok { db with images := db.images.filter (fun i => i.id ≠ id_val),
                image_tags := db.image_tags.filter (fun p => p.1 ≠ id_val) }

/-- The field writes of `update_from_dto` (`image_service.rs` lines
161–183): path, thumbnail_path and description are overwritten only by
a present non-empty DTO field; the boolean flags are always written
from the DTO. -/
def applyUpdateFields (existing_model : ImageRow) (dto : ImageUpdateDTO) : ImageRow :=
  { existing_model with
    path := match dto.path with
            | some path => if path ≠ "" then path else existing_model.path
            | none => existing_model.path,
    thumbnail_path := match dto.thumbnail_path with
            | some tp => if tp ≠ "" then tp else existing_model.thumbnail_path
            | none => existing_model.thumbnail_path,
    description := match dto.description with
            | some d => if d ≠ "" then d else existing_model.description
            | none => existing_model.description,
    is_prepared := dto.is_prepared,
    is_folder := dto.is_folder }

/-- The row save of `active_model.update`: the stored row with the
image's id is replaced by the updated model. -/
def writeImageRow (db : Db) (id : ℤ) (updated_model : ImageRow) : Db :=
  { db with images := db.images.map (fun i => if i.id = id then updated_model else i) }

/-- Embeds `update_from_dto` (`image_service.rs` lines 154–194): load the row
(`RecordNotFound` when absent), overwrite path/thumbnail/description
only from present non-empty DTO fields, always write both boolean
flags, save, then reconcile tags when a non-empty tag set is present. -/
def update_from_dto (db : Db) (id : ℤ) (dto : ImageUpdateDTO) :
    Except DbErr (Db × ImageRow) :=
  match db.images.find? (fun i => i.id = id) with
  | none => .error .recordNotFound
  | some existing_model =>
    let updated_model := applyUpdateFields existing_model dto
    let db1 := writeImageRow db id updated_model
    match dto.tags with
    | some tags =>
      if tags ≠ [] then
        (update_tags_for_image db1 id tags).map (fun db2 => (db2, updated_model))
      else .ok (db1, updated_model)
    | none => .ok (db1, updated_model)

/-! ## Shared lemmas about the query pipeline -/

/-- The empty database. -/
def emptyDb : Db := { images := [], tags := [], image_tags := [] }

/-- A filter with no text query and no tag filter. -/
def emptyFilter : Filter := { query := "", tags := [], sort_order := .createdDesc }

/-- The spec's multi-tag example catalog: images A (tags x,y), B (tag x),
C (tags x,y,z). -/
def dbABC : Db :=
  { images := [ { id := 1, path := "a", thumbnail_path := "ta", description := "A",
                  created_at := 1, is_folder := false, is_prepared := true },
                { id := 2, path := "b", thumbnail_path := "tb", description := "B",
                  created_at := 2, is_folder := false, is_prepared := true },
                { id := 3, path := "c", thumbnail_path := "tc", description := "C",
                  created_at := 3, is_folder := false, is_prepared := true } ],
    tags := [ { id := 10, name := "x", color := .blue },
              { id := 11, name := "y", color := .blue },
              { id := 12, name := "z", color := .blue } ],
    image_tags := [ (1, 10), (1, 11), (2, 10), (3, 10), (3, 11), (3, 12) ] }

theorem mem_of_mem_paginate {α : Type} {l : List α} {page size : ℕ} {a : α}
    (h : a ∈ paginate l page size) : a ∈ l := by
  have h1 : a ∈ l.drop (page * size) := List.mem_of_mem_take h
  exact List.mem_of_mem_drop h1

theorem mem_sortImages {ord : SortOrder} {l : List ImageRow} {a : ImageRow} :
    a ∈ sortImages ord l ↔ a ∈ l := by
  unfold sortImages
  by_cases h : ord = SortOrder.createdDesc <;>
    simp [h, (List.perm_insertionSort _ _).mem_iff]

theorem find_all_content_from_images {db : Db} {f : Filter} {page size : ℕ}
    {pg : Page ImageDTO} (h : find_all db f page size = some pg) :
    ∀ dto ∈ pg.content, ∃ img ∈ db.images, dto = to_image_dto db img := by
  intro dto hdto
  unfold find_all at h
  by_cases hc : ¬ trimChars f.query.toList ≠ [] ∧ ¬ ¬ f.tags.isEmpty = true
  · rw [if_pos hc] at h
    unfold find_all_images_without_filter at h
    rcases htp : totalPagesOf db.images.length size with _ | tp <;> rw [htp] at h
    · exact absurd h (by simp)
    · have hpg := (Option.some_inj.mp h).symm
      subst hpg
      simp only [List.mem_map] at hdto
      obtain ⟨row, hrow, hd⟩ := hdto
      exact ⟨row, mem_sortImages.mp (mem_of_mem_paginate hrow), hd.symm⟩
  · rw [if_neg hc] at h
    rcases htp : totalPagesOf ((filteredSelection db f).map ImageRow.id).dedup.length size
      with _ | tp <;> simp only [htp] at h
    · exact absurd h (by simp)
    · have hpg := (Option.some_inj.mp h).symm
      subst hpg
      simp only [List.mem_map] at hdto
      obtain ⟨row, hrow, hd⟩ := hdto
      have : row ∈ filteredSelection db f := mem_sortImages.mp (mem_of_mem_paginate hrow)
      exact ⟨row, List.mem_of_mem_filter this, hd.symm⟩

/-! ## Theorems for C2 -/

/-- C2 counterexample: a placeholder row created by `insert_image`
(hence `is_prepared = false`) IS surfaced by `find_all`: on the catalog
consisting of exactly that row, the unfiltered search returns a page
whose single DTO has `is_prepared = false`. -/
theorem find_all_surfaces_unprepared_row :
    (find_all (insert_image emptyDb "cat" 7).1 emptyFilter 0 10).map
      (fun p => p.content.map ImageDTO.is_prepared) = some [false] := by decide

/-- C2 amended: `find_all` applies no `is_prepared` filter at all — every
DTO of every returned page reproduces the stored row's `is_prepared`
flag verbatim (placeholder rows with `is_prepared = false`, as created
by `insert_image`, are surfaced like any other row; only the
presentation layer distinguishes them). -/
theorem find_all_reflects_is_prepared (db : Db) (f : Filter) (page size : ℕ)
    (pg : Page ImageDTO) (h : find_all db f page size = some pg) :
    ∀ dto ∈ pg.content, ∃ img ∈ db.images,
      dto.id = img.id ∧ dto.is_prepared = img.is_prepared := by
  intro dto hdto
  obtain ⟨img, himg, hd⟩ := find_all_content_from_images h dto hdto
  exact ⟨img, himg, by rw [hd]; exact ⟨rfl, rfl⟩⟩

/-- The DTO that surfaces the placeholder row of `insert_image`. -/
def placeholderDTO : ImageDTO :=
  { id := 1, path := "", thumbnail_path := "", description := "cat", tags := [],
    created_at := 7, is_folder := false, is_prepared := false }

/-- The page `find_all` returns on the one-placeholder catalog. -/
def placeholderPage : Page ImageDTO :=
  { content := [placeholderDTO], total_pages := 1, page_number := 0 }

/-- Witness for `find_all_reflects_is_prepared` on the one-placeholder
catalog, at its single returned DTO. -/
theorem find_all_reflects_is_prepared_witness :
    ∃ img ∈ (insert_image emptyDb "cat" 7).1.images,
      placeholderDTO.id = img.id ∧ placeholderDTO.is_prepared = img.is_prepared :=
  find_all_reflects_is_prepared (insert_image emptyDb "cat" 7).1 emptyFilter 0 10
    placeholderPage (by decide) placeholderDTO (by decide)

/-! ## Theorems for C10 -/

/-- C10: `find_all` requires `size > 0`: with `size = 0` the page-count
division `(total_count + size - 1) / size` is reached — and panics,
modelled as `none` — exactly when the respective total count is
positive: on the unfiltered path whenever the catalog is non-empty, on
the filtered path whenever some row matches the filter; with an empty
catalog both paths return 0 total pages without dividing. -/
theorem find_all_size_zero_division (db : Db) (f : Filter) (page : ℕ) :
    (trimChars f.query.toList = [] → f.tags = [] → db.images ≠ [] →
      find_all db f page 0 = none) ∧
    (f.tags ≠ [] → filteredSelection db f ≠ [] →
      find_all db f page 0 = none) ∧
    (db.images = [] →
      (find_all db f page 0).map Page.total_pages = some 0) := by
  refine ⟨fun hq ht hne => ?_, fun ht hsel => ?_, fun hemp => ?_⟩
  · unfold find_all
    rw [if_pos ⟨fun hcon => hcon hq, by simp [ht]⟩]
    unfold find_all_images_without_filter
    have : totalPagesOf db.images.length 0 = none := by
      unfold totalPagesOf
      rw [if_neg (by simpa using hne), if_pos rfl]
    rw [this]
  · unfold find_all
    rw [if_neg (by simp [ht])]
    have : totalPagesOf ((filteredSelection db f).map ImageRow.id).dedup.length 0 = none := by
      unfold totalPagesOf
      rw [if_neg (by simp [List.dedup_eq_nil, hsel]), if_pos rfl]
    simp only [this]
  · unfold find_all
    by_cases hc : ¬ trimChars f.query.toList ≠ [] ∧ ¬ ¬ f.tags.isEmpty = true
    · rw [if_pos hc]
      unfold find_all_images_without_filter
      have : totalPagesOf db.images.length 0 = some 0 := by
        unfold totalPagesOf
        rw [if_pos (by simp [hemp])]
      rw [this]
      simp [paginate, hemp, sortImages]
    · rw [if_neg hc]
      have hsel : filteredSelection db f = [] := by
        unfold filteredSelection
        rw [hemp]
        rfl
      have : totalPagesOf ((filteredSelection db f).map ImageRow.id).dedup.length 0 = some 0 := by
        unfold totalPagesOf
        rw [if_pos (by simp [hsel])]
      simp only [this]
      simp [paginate, hsel, sortImages]

/-- Witness for `find_all_size_zero_division`: the division by zero is
reached on a concrete non-empty catalog through both query paths, and
the empty catalog yields 0 pages. -/
theorem find_all_size_zero_division_witness :
    (find_all (insert_image emptyDb "cat" 7).1 emptyFilter 0 0 = none) ∧
    (find_all dbABC { query := "", tags := ["x"], sort_order := .createdDesc } 0 0 = none) ∧
    ((find_all emptyDb emptyFilter 0 0).map Page.total_pages = some 0) :=
  ⟨(find_all_size_zero_division (insert_image emptyDb "cat" 7).1 emptyFilter 0).1
      (by decide) (by decide) (by decide),
   (find_all_size_zero_division dbABC
      { query := "", tags := ["x"], sort_order := .createdDesc } 0).2.1
      (by decide) (by decide),
   (find_all_size_zero_division emptyDb emptyFilter 0).2.2 (by decide)⟩

/-! ## Theorems for C7 -/

/-- A catalog directory holding one registered single image. -/
def singleImageFS : FS :=
  { files := [ ["images", "7", "image_7.png"], ["images", "7", "thumb_image_7.png"] ],
    dirs := [ ["images"], ["images", "7"] ] }

/-- C7 counterexample: artifact deletion does NOT treat a missing path
as already satisfied.  After a first successful smart delete of
`images/7/image_7.png` (which removes the whole numbered folder), the
second smart delete of the same path returns a hard `NotFound` error —
the guard at the top of `delete_image_smart` errors out before the
tolerant single-file logic is reached. -/
theorem second_artifact_delete_errors :
    delete_image_smart singleImageFS ["images", "7", "image_7.png"] false =
      .ok { files := [], dirs := [ ["images"] ] } ∧
    delete_image_smart { files := [], dirs := [ ["images"] ] }
        ["images", "7", "image_7.png"] false = .error .notFound := by decide

/-- C7 amended: the transactional DB delete is idempotent — it returns
`Ok` whether or not the row exists, so two deletes in a row both
succeed — and the inner single-file deletion treats an already-missing
file as satisfied; but `delete_image_smart` itself checks the path
first and returns a `NotFound` error when it no longer exists, so the
second delete of a catalog entry fails at the artifact step (its caller
only logs that error). -/
theorem delete_idempotency (db : Db) (id : ℤ) (fs : FS) (path : FPath) (from_folder : Bool) :
    (∃ db1, delete_image db id = .ok db1 ∧ delete_image db1 id = .ok db1 ∧
      ∀ img ∈ db1.images, img.id ≠ id) ∧
    (fs.pathExists path = false →
      delete_image_smart fs path from_folder = .error .notFound) ∧
    (path ∉ fs.files → path ∉ fs.dirs →
      delete_single_file_with_thumbnail fs path = .ok fs) := by
  refine ⟨?_, fun hmiss => ?_, fun hf hd => ?_⟩
  · refine ⟨_, rfl, ?_, ?_⟩
    · unfold delete_image
      have h1 : (db.images.filter (fun i => i.id ≠ id)).filter (fun i => i.id ≠ id) =
          db.images.filter (fun i => i.id ≠ id) := by
        apply List.filter_eq_self.mpr
        intro a ha
        exact (List.mem_filter.mp ha).2
      have h2 : (db.image_tags.filter (fun p => p.1 ≠ id)).filter (fun p => p.1 ≠ id) =
          db.image_tags.filter (fun p => p.1 ≠ id) := by
        apply List.filter_eq_self.mpr
        intro a ha
        exact (List.mem_filter.mp ha).2
      simp only [h1, h2]
    · intro img himg
      have := List.of_mem_filter himg
      simpa using this
  · unfold delete_image_smart
    rw [if_pos (by simp [hmiss])]
  · unfold delete_single_file_with_thumbnail
    rw [if_pos (by simp [FS.pathExists, hf, hd])]

/-- Witness for `delete_idempotency`: the DB delete of id 7 twice, and
the artifact functions on the state left by the first delete. -/
theorem delete_idempotency_witness :
    (∃ db1, delete_image (insert_image emptyDb "cat" 7).1 1 = .ok db1 ∧
      delete_image db1 1 = .ok db1 ∧ ∀ img ∈ db1.images, img.id ≠ 1) ∧
    (delete_image_smart { files := [], dirs := [ ["images"] ] }
        ["images", "7", "image_7.png"] false = .error .notFound) ∧
    (delete_single_file_with_thumbnail { files := [], dirs := [ ["images"] ] }
        ["images", "7", "image_7.png"] = .ok { files := [], dirs := [ ["images"] ] }) :=
  ⟨(delete_idempotency (insert_image emptyDb "cat" 7).1 1
      { files := [], dirs := [ ["images"] ] } ["images", "7", "image_7.png"] false).1,
   (delete_idempotency (insert_image emptyDb "cat" 7).1 1
      { files := [], dirs := [ ["images"] ] } ["images", "7", "image_7.png"] false).2.1
      (by decide),
   (delete_idempotency (insert_image emptyDb "cat" 7).1 1
      { files := [], dirs := [ ["images"] ] } ["images", "7", "image_7.png"] false).2.2
      (by decide) (by decide)⟩

/-! ## Theorems for C8 -/

/-- C8: `update_from_dto` is a sparse PATCH: on any existing row, a DTO
field `path`/`thumbnail_path`/`description` that is absent or empty
leaves the stored value unchanged, the boolean flags `is_folder` and
`is_prepared` are always overwritten with the DTO's values (including
`false`), other rows are untouched, and when the DTO carries no
(non-empty) tag set the tag associations are left unchanged — in
particular an update carrying only a description leaves path,
thumbnail_path and the image's tag set unchanged. -/
theorem addTagToImage_preserves_images {db db' : Db} {i : ℤ} {t : TagDTO}
    (h : addTagToImage db i t = .ok db') : db'.images = db.images := by
  unfold addTagToImage resolveOrCreateTag insertImageTag at h
  by_cases hn : t.name = ""
  · rw [if_pos hn] at h
    cases h
    rfl
  · rw [if_neg hn] at h
    rcases hfind : db.tags.find? (fun tg => tg.name = t.name) with _ | tg <;>
        simp only [hfind] at h
    · by_cases hm : (i, nextTagId db) ∈ db.image_tags
      · rw [if_pos hm] at h
        exact absurd h (by simp)
      · rw [if_neg hm] at h
        cases h
        rfl
    · by_cases hm : (i, tg.id) ∈ db.image_tags
      · rw [if_pos hm] at h
        exact absurd h (by simp)
      · rw [if_neg hm] at h
        cases h
        rfl

theorem addTagsLoop_preserves_images (tags : List TagDTO) :
    ∀ (db db2 : Db) (i : ℤ),
      addTagsLoop i db tags = .ok db2 → db2.images = db.images := by
  induction tags with
  | nil =>
    intro db db2 i h
    cases h
    rfl
  | cons t ts ih =>
    intro db db2 i h
    unfold addTagsLoop at h
    rcases hstep : addTagToImage db i t with _ | db1 <;> rw [hstep] at h
    · exact absurd h (by simp)
    · rw [ih db1 db2 i h, addTagToImage_preserves_images hstep]

theorem update_tags_preserves_images {db db2 : Db} {i : ℤ} {tags : List TagDTO}
    (h : update_tags_for_image db i tags = .ok db2) : db2.images = db.images := by
  unfold update_tags_for_image at h
  exact addTagsLoop_preserves_images tags
    { db with image_tags := db.image_tags.filter (fun p => p.1 ≠ i) } db2 i h

/-- In every success case of `update_from_dto`, the returned model is
the field-level update of the found row. -/
theorem update_from_dto_ok_row {db : Db} {id : ℤ} {dto : ImageUpdateDTO}
    {row : ImageRow} (hrow : db.images.find? (fun i => i.id = id) = some row)
    {db' : Db} {row' : ImageRow} (hok : update_from_dto db id dto = .ok (db', row')) :
    row' = applyUpdateFields row dto ∧
    db'.images = db.images.map
      (fun i => if i.id = id then applyUpdateFields row dto else i) := by
  unfold update_from_dto at hok
  rcases htags : dto.tags with _ | tags <;> simp only [hrow, htags] at hok
  · cases hok
    exact ⟨rfl, rfl⟩
  · by_cases hne : tags ≠ []
    · rw [if_pos hne] at hok
      rcases hupd : update_tags_for_image
          (writeImageRow db id (applyUpdateFields row dto)) id tags
        with _ | db2 <;> rw [hupd] at hok <;> simp only [Except.map] at hok
      · exact absurd hok (by simp)
      · rw [Except.ok.injEq, Prod.mk.injEq] at hok
        refine ⟨hok.2.symm, ?_⟩
        rw [← hok.1]
        exact update_tags_preserves_images hupd
    · rw [if_neg hne] at hok
      cases hok
      exact ⟨rfl, rfl⟩

/-- C8: `update_from_dto` is a sparse PATCH: on any existing row, a DTO
field `path`/`thumbnail_path`/`description` that is absent or empty
leaves the stored value unchanged, the boolean flags `is_folder` and
`is_prepared` are always overwritten with the DTO's values (including
`false`), rows of other images are untouched, and when the DTO carries
no (non-empty) tag set the tag associations (and the tag table) are
left unchanged — in particular an update carrying only a description
leaves path, thumbnail_path and the image's tag set unchanged. -/
theorem update_from_dto_sparse_patch (db : Db) (id : ℤ) (dto : ImageUpdateDTO)
    (row : ImageRow) (hrow : db.images.find? (fun i => i.id = id) = some row) :
    (∀ db' row', update_from_dto db id dto = .ok (db', row') →
      ((dto.path = none ∨ dto.path = some "") → row'.path = row.path) ∧
      ((dto.thumbnail_path = none ∨ dto.thumbnail_path = some "") →
        row'.thumbnail_path = row.thumbnail_path) ∧
      ((dto.description = none ∨ dto.description = some "") →
        row'.description = row.description) ∧
      row'.is_prepared = dto.is_prepared ∧ row'.is_folder = dto.is_folder ∧
      (∀ img ∈ db.images, img.id ≠ id → img ∈ db'.images)) ∧
    ((dto.tags = none ∨ dto.tags = some []) →
      ∃ db' row', update_from_dto db id dto = .ok (db', row') ∧
        db'.image_tags = db.image_tags ∧ db'.tags = db.tags) := by
  constructor
  · intro db' row' hok
    obtain ⟨hrow', hdb'⟩ := update_from_dto_ok_row hrow hok
    subst hrow'
    refine ⟨?_, ?_, ?_, ?_, ?_, ?_⟩
    · intro hcase
      rcases hcase with hc | hc <;> simp [applyUpdateFields, hc]
    · intro hcase
      rcases hcase with hc | hc <;> simp [applyUpdateFields, hc]
    · intro hcase
      rcases hcase with hc | hc <;> simp [applyUpdateFields, hc]
    · rfl
    · rfl
    · intro img himg hne
      rw [hdb']
      simp only [List.mem_map]
      exact ⟨img, himg, by rw [if_neg (by simpa using hne)]⟩
  · intro htags
    unfold update_from_dto
    rw [hrow]
    rcases htags with hc | hc <;> simp [hc] <;> exact ⟨rfl, rfl⟩

/-- Witness for `update_from_dto_sparse_patch`: a description-only
update of the placeholder row. -/
theorem update_from_dto_sparse_patch_witness :
    ∃ db' row',
      update_from_dto (insert_image emptyDb "cat" 7).1 1
        { path := none, thumbnail_path := none, description := some "dog",
          tags := none, is_folder := false, is_prepared := true } = .ok (db', row') ∧
      db'.image_tags = (insert_image emptyDb "cat" 7).1.image_tags ∧
      db'.tags = (insert_image emptyDb "cat" 7).1.tags :=
  (update_from_dto_sparse_patch (insert_image emptyDb "cat" 7).1 1
    { path := none, thumbnail_path := none, description := some "dog",
      tags := none, is_folder := false, is_prepared := true }
    { id := 1, path := "", thumbnail_path := "", description := "cat",
      created_at := 7, is_folder := false, is_prepared := false }
    (by decide)).2 (Or.inl rfl)

/-! ## Theorems for C6 -/

/-- C6 counterexample: tag resolve-or-create is NOT idempotent under
letter case.  Starting from an empty tag table, resolve-or-create with
`"Red"` yields tag id 1, a following resolve-or-create with `"red"`
yields tag id 2 (not the same id), and afterwards two case-variant tag
rows named `"Red"` and `"red"` exist — the lookup is by exact,
case-sensitive name. -/
theorem resolve_or_create_case_sensitive :
    (resolveOrCreateTag emptyDb "Red" .blue).2.id = 1 ∧
    (resolveOrCreateTag (resolveOrCreateTag emptyDb "Red" .blue).1 "red" .blue).2.id = 2 ∧
    (resolveOrCreateTag (resolveOrCreateTag emptyDb "Red" .blue).1 "red" .blue).1.tags.map
      TagRow.name = ["Red", "red"] := by decide

/-- C6 amended: resolve-or-create looks a tag up by its exact name, so
it is idempotent only for literally equal names — repeating it with the
same name yields the same tag row and leaves the store unchanged — and
case normalization happens only in the explicit `save` path, which
lowercases the name before inserting, so `save` of `"Red"` creates the
single row `"red"`; resolve-or-create with `"Red"` and then `"red"`
instead creates two distinct rows. -/
theorem resolve_or_create_exact_name (db : Db) (name : String) (color : TagColor) :
    ((resolveOrCreateTag (resolveOrCreateTag db name color).1 name color).2 =
        (resolveOrCreateTag db name color).2 ∧
      (resolveOrCreateTag (resolveOrCreateTag db name color).1 name color).1 =
        (resolveOrCreateTag db name color).1) ∧
    ((db.tags.find? (fun t => t.name = String.mk (strToLower name))).isSome = false →
      tag_save db name color =
        .ok { db with tags := db.tags ++
          [{ id := nextTagId db, name := String.mk (strToLower name), color := color }] }) := by
  constructor
  · unfold resolveOrCreateTag
    rcases hfind : db.tags.find? (fun t => t.name = name) with _ | tg <;>
        simp only [hfind]
    · rw [List.find?_append, hfind]
      simp
    · simp
  · intro hno
    unfold tag_save
    rw [if_neg (by simp [hno])]

/-- Witness for `resolve_or_create_exact_name` on the empty store with
the spec's tag name. -/
theorem resolve_or_create_exact_name_witness :
    ((resolveOrCreateTag (resolveOrCreateTag emptyDb "Red" TagColor.blue).1 "Red"
        TagColor.blue).2 = (resolveOrCreateTag emptyDb "Red" TagColor.blue).2 ∧
      (resolveOrCreateTag (resolveOrCreateTag emptyDb "Red" TagColor.blue).1 "Red"
        TagColor.blue).1 = (resolveOrCreateTag emptyDb "Red" TagColor.blue).1) ∧
    tag_save emptyDb "Red" TagColor.blue =
      .ok { emptyDb with tags := emptyDb.tags ++
        [{ id := nextTagId emptyDb, name := String.mk (strToLower "Red"),
           color := TagColor.blue }] } :=
  ⟨(resolve_or_create_exact_name emptyDb "Red" TagColor.blue).1,
   (resolve_or_create_exact_name emptyDb "Red" TagColor.blue).2 (by decide)⟩

/-! ## Lemmas for the tag-intersection query (C1) -/

/-- The grouped `COUNT(tag.name)` of the filtered query counts, among
the image's joined tag rows, exactly those whose name is requested. -/
theorem joinCount_eq_filter_names (db : Db) (T : List String) (i : ℤ) :
    joinCountForImage db T i =
      ((tagsForImage db i).filter (fun d => T.contains d.name)).length := by
  unfold joinCountForImage tagsForImage
  generalize db.image_tags.filter (fun p => p.1 = i) = P
  induction P with
  | nil => rfl
  | cons p P ih =>
    rw [List.flatMap_cons, List.flatMap_cons, List.length_append, List.filter_append,
      List.length_append, ih]
    congr 1
    rw [List.filter_map, List.length_map, List.filter_filter]
    congr 1
    apply List.filter_congr
    intro t _
    simp [Function.comp, Bool.and_comm]

/-- In a tag table with distinct names, the hydrated tag names of any
image are distinct, provided the join pairs are distinct (rows of the
`image_tags` table, whose composite primary key enforces this). -/
theorem tags_names_nodup_aux (db : Db) (i : ℤ)
    (htagname : (db.tags.map TagRow.name).Nodup) :
    ∀ P : List (ℤ × ℤ), P.Nodup → (∀ p ∈ P, p.1 = i) →
      ((P.flatMap (fun p => (db.tags.filter (fun t => t.id = p.2)).map
        (fun t => ({ id := t.id, name := t.name, color := t.color } : TagDTO)))).map
        TagDTO.name).Nodup := by
  intro P
  induction P with
  | nil =>
    intro _ _
    simp
  | cons p P ih =>
    intro hnd hfst
    rw [List.nodup_cons] at hnd
    rw [List.flatMap_cons, List.map_append]
    rw [List.nodup_append]
    refine ⟨?_, ih hnd.2 (fun q hq => hfst q (List.mem_cons_of_mem p hq)), ?_⟩
    · rw [List.map_map]
      exact List.Nodup.sublist ((List.filter_sublist db.tags).map _) htagname
    · intro x hx hq
      simp only [List.map_map, List.mem_map, List.mem_filter, Function.comp] at hx
      obtain ⟨t, ⟨htmem, htid⟩, rfl⟩ := hx
      simp only [List.mem_map, List.mem_flatMap, List.mem_filter] at hq
      obtain ⟨d', ⟨p', hp'mem, t', ⟨⟨ht'mem, ht'id⟩, rfl⟩⟩, hname⟩ := hq
      have hteq : t' = t :=
        List.inj_on_of_nodup_map htagname ht'mem htmem hname
      subst hteq
      have hpeq : p' = p := by
        have h1 : p'.1 = i := hfst p' (List.mem_cons_of_mem p hp'mem)
        have h2 : p.1 = i := hfst p (List.mem_cons_self p P)
        have h3 : p'.2 = p.2 := by
          have ha := of_decide_eq_true htid
          have hb := of_decide_eq_true ht'id
          rw [← ha, ← hb]
        exact Prod.ext (h1.trans h2.symm) h3
      exact hnd.1 (hpeq ▸ hp'mem)

/-- The hydrated tag names of an image are distinct under the table
invariants. -/
theorem tagNamesOfImage_nodup (db : Db) (i : ℤ)
    (htagname : (db.tags.map TagRow.name).Nodup)
    (hit : db.image_tags.Nodup) :
    (tagNamesOfImage db i).Nodup := by
  unfold tagNamesOfImage tagsForImage
  exact tags_names_nodup_aux db i htagname
    (db.image_tags.filter (fun p => p.1 = i))
    (hit.filter _)
    (fun p hp => of_decide_eq_true (List.mem_filter.mp hp).2)

/-- For duplicate-free lists, keeping the members of `T` inside `N`
leaves exactly `|T|` elements iff every member of `T` occurs in `N`. -/
theorem filter_length_eq_iff_subset (N T : List String)
    (hN : N.Nodup) (hT : T.Nodup) :
    ((N.filter (fun n => T.contains n)).length = T.length ↔ ∀ x ∈ T, x ∈ N) := by
  have hNf : (N.filter (fun n => T.contains n)).Nodup := hN.filter _
  have hset : (N.filter (fun n => T.contains n)).toFinset = N.toFinset ∩ T.toFinset := by
    ext x
    simp [List.mem_filter, List.mem_toFinset, And.comm]
  have hlen : (N.filter (fun n => T.contains n)).length =
      (N.toFinset ∩ T.toFinset).card := by
    rw [← hset, List.toFinset_card_of_nodup hNf]
  have hTlen : T.length = T.toFinset.card := (List.toFinset_card_of_nodup hT).symm
  rw [hlen, hTlen]
  constructor
  · intro hcard x hx
    have hsub : N.toFinset ∩ T.toFinset ⊆ T.toFinset := Finset.inter_subset_right
    have heq : N.toFinset ∩ T.toFinset = T.toFinset :=
      Finset.eq_of_subset_of_card_le hsub (le_of_eq hcard.symm)
    have hxT : x ∈ T.toFinset := List.mem_toFinset.mpr hx
    rw [← heq] at hxT
    exact List.mem_toFinset.mp (Finset.mem_of_mem_inter_left hxT)
  · intro hsub
    congr 1
    apply Finset.inter_eq_right.mpr
    intro x hx
    exact List.mem_toFinset.mpr (hsub x (List.mem_toFinset.mp hx))

/-- The tag-filtered selection condition is exactly the grouped-count
condition when the query text is empty. -/
theorem mem_filteredSelection_tags (db : Db) (T : List String) (ord : SortOrder)
    (hT : T ≠ []) (img : ImageRow) :
    (img ∈ filteredSelection db { query := "", tags := T, sort_order := ord } ↔
      img ∈ db.images ∧ joinCountForImage db T img.id = T.length) := by
  unfold filteredSelection filterPred
  rw [List.mem_filter]
  have hemp : T.isEmpty = false := by
    cases T with
    | nil => exact absurd rfl hT
    | cons a l => rfl
  rw [hemp]
  simp [build_desc_condition, trimChars]

/-- C1: for every catalog state satisfying the schema invariants and
every non-empty duplicate-free requested tag-name set `T`, the filtered
`find_all` (page 0, page size at least the catalog size) returns
exactly the images carrying every tag of `T` — an image with only a
strict subset of `T` is excluded, an image with all of `T` plus extra
tags included — and the query achieves this through the grouped
per-image count of matching joined tag rows being equal to `|T|`, the
number of distinct requested names. -/
theorem find_all_tag_filter_intersection (db : Db) (T : List String) (ord : SortOrder)
    (size : ℕ) (hT : T ≠ []) (hTnd : T.Nodup)
    (himg : (db.images.map ImageRow.id).Nodup)
    (htagname : (db.tags.map TagRow.name).Nodup)
    (hit : db.image_tags.Nodup)
    (hsize : db.images.length ≤ size) :
    ∃ pg, find_all db { query := "", tags := T, sort_order := ord } 0 size = some pg ∧
      ∀ img ∈ db.images,
        ((∃ dto ∈ pg.content, dto.id = img.id) ↔ ∀ n ∈ T, n ∈ tagNamesOfImage db img.id) ∧
        (joinCountForImage db T img.id = T.length ↔
          ∀ n ∈ T, n ∈ tagNamesOfImage db img.id) := by
  have hkey : ∀ img ∈ db.images,
      (joinCountForImage db T img.id = T.length ↔
        ∀ n ∈ T, n ∈ tagNamesOfImage db img.id) := by
    intro img _
    rw [joinCount_eq_filter_names]
    have hstep : ((tagsForImage db img.id).filter (fun d => T.contains d.name)).length =
        ((tagNamesOfImage db img.id).filter (fun n => T.contains n)).length := by
      unfold tagNamesOfImage
      rw [List.filter_map, List.length_map]
      rfl
    rw [hstep]
    exact filter_length_eq_iff_subset _ T
      (tagNamesOfImage_nodup db img.id htagname hit) hTnd
  have hemp : T.isEmpty = false := by
    cases T with
    | nil => exact absurd rfl hT
    | cons a l => rfl
  set f : Filter := { query := "", tags := T, sort_order := ord } with hf
  have hsel_sub : (filteredSelection db f).length ≤ db.images.length :=
    List.length_filter_le _ _
  unfold find_all
  rw [if_neg (fun hc => hc.2 (fun he => hT (List.isEmpty_iff.mp he)))]
  rcases htp : totalPagesOf ((filteredSelection db f).map ImageRow.id).dedup.length size
    with _ | tp
  · exfalso
    unfold totalPagesOf at htp
    by_cases hz : ((filteredSelection db f).map ImageRow.id).dedup.length = 0
    · rw [if_pos hz] at htp
      exact absurd htp (by simp)
    · rw [if_neg hz] at htp
      by_cases hs : size = 0
      · have himgemp : db.images = [] := by
          rw [← List.length_eq_zero]
          omega
        have : filteredSelection db f = [] := by
          unfold filteredSelection
          rw [himgemp]
          rfl
        rw [this] at hz
        exact hz rfl
      · rw [if_neg hs] at htp
        exact absurd htp (by simp)
  · simp only [htp]
    refine ⟨_, rfl, ?_⟩
    intro img himgmem
    refine ⟨?_, hkey img himgmem⟩
    have hcontent : ∀ dto, (dto ∈ (paginate
        (sortImages f.sort_order (filteredSelection db f)) 0 size).map (to_image_dto db) ↔
        ∃ row ∈ filteredSelection db f, to_image_dto db row = dto) := by
      intro dto
      have hlen : (sortImages f.sort_order (filteredSelection db f)).length ≤ size := by
        have hperm : (sortImages f.sort_order (filteredSelection db f)).length =
            (filteredSelection db f).length := by
          unfold sortImages
          by_cases h : ord = SortOrder.createdDesc <;>
            simp [h, (List.perm_insertionSort _ _).length_eq]
        omega
      unfold paginate
      rw [Nat.zero_mul, List.drop_zero, List.take_of_length_le hlen]
      simp only [List.mem_map]
      constructor
      · rintro ⟨row, hrow, rfl⟩
        exact ⟨row, mem_sortImages.mp hrow, rfl⟩
      · rintro ⟨row, hrow, rfl⟩
        exact ⟨row, mem_sortImages.mpr hrow, rfl⟩
    rw [← hkey img himgmem]
    constructor
    · rintro ⟨dto, hdto, hid⟩
      obtain ⟨row, hrowsel, hrowdto⟩ := (hcontent dto).mp hdto
      have hrowid : row.id = img.id := by
        rw [← hid, ← hrowdto]
        rfl
      have hrowimg : row = img :=
        List.inj_on_of_nodup_map himg
          (List.mem_of_mem_filter hrowsel) himgmem hrowid
      subst hrowimg
      exact ((mem_filteredSelection_tags db T ord hT row).mp hrowsel).2
    · intro hcount
      have hsel : img ∈ filteredSelection db f :=
        (mem_filteredSelection_tags db T ord hT img).mpr ⟨himgmem, hcount⟩
      exact ⟨to_image_dto db img, (hcontent _).mpr ⟨img, hsel, rfl⟩, rfl⟩

/-- Witness for `find_all_tag_filter_intersection` on the spec's
example catalog (images A:{x,y}, B:{x}, C:{x,y,z}) with `T = {x,y}`. -/
theorem find_all_tag_filter_intersection_witness :
    ∃ pg, find_all dbABC { query := "", tags := ["x", "y"], sort_order := .createdAsc }
        0 10 = some pg ∧
      ∀ img ∈ dbABC.images,
        ((∃ dto ∈ pg.content, dto.id = img.id) ↔
          ∀ n ∈ ["x", "y"], n ∈ tagNamesOfImage dbABC img.id) ∧
        (joinCountForImage dbABC ["x", "y"] img.id = (["x", "y"] : List String).length ↔
          ∀ n ∈ ["x", "y"], n ∈ tagNamesOfImage dbABC img.id) :=
  find_all_tag_filter_intersection dbABC ["x", "y"] .createdAsc 10
    (by decide) (by decide) (by decide) (by decide) (by decide) (by decide)

end Organizer
